import Mathlib

set_option maxRecDepth 8000

/-!
Verification development for the jasonsoft-nestjs-seq log shipper.

The definitions below are a shallow embedding of the repository sources:
  * src/unnamed/part_003           safeStringify
  * src/unnamed/part_004 (core)    SeqLoggerCore: mergeOptionsWithDefaults,
                                   emit, start, close, send, handleLargeEvent
  * src/lib/utils/event-collection.util.ts  EventCollection (FIFO list)
  * src/lib/interfaces/seq-event.interface.ts  SeqEvent

JavaScript machine model conventions:
  * byte lengths (Buffer.byteLength) are UTF-8 byte counts;
  * a JavaScript runtime value is a primitive or a reference into a heap of
    objects (ordered own-property lists), so circular structures are
    representable;
  * an `Option` field models a possibly-undefined value (none = undefined);
  * the async send loop is rendered as explicit state passing plus fuel.
-/

/-- A JavaScript primitive value as distinguished by the typeof checks in
safeStringify: null, undefined, booleans, numbers (modelled as integers),
strings, functions (carrying their name) and symbols (carrying their
description). -/
inductive JsPrim where
  | null
  | undefined
  | bool (b : Bool)
  | num (n : Int)
  | str (s : String)
  | fn (name : String)
  | sym (descr : String)
  deriving DecidableEq, Repr

/-- A JavaScript value: a primitive, or a reference to an object in a heap.
References make repeated and circular object graphs representable. -/
inductive JsVal where
  | prim (p : JsPrim)
  | ref (i : Nat)
  deriving DecidableEq, Repr

/-- A JavaScript object heap: object number i is an ordered list of its own
enumerable properties. -/
abbrev Heap := List (List (String × JsVal))

/-- UTF-8 byte length of a string, as computed by Buffer.byteLength. -/
def byteLen (s : String) : Nat :=
  (s.data.map Char.utf8Size).sum

/-- One hexadecimal digit. -/
def hexDigit (n : Nat) : Char :=
  if n < 10 then Char.ofNat (48 + n) else Char.ofNat (87 + n)

/-- JSON escaping of a single character, as performed by JSON.stringify. -/
def escapeChar (c : Char) : String :=
  if c = '"' then "\\\""
  else if c = '\\' then "\\\\"
  else if c = '\n' then "\\n"
  else if c = '\r' then "\\r"
  else if c = '\t' then "\\t"
  else if c.toNat < 32 then
    "\\u00" ++ String.singleton (hexDigit (c.toNat / 16))
            ++ String.singleton (hexDigit (c.toNat % 16))
  else String.singleton c

/-- JSON string literal: escaped content between double quotes. -/
def quoteJson (s : String) : String :=
  "\"" ++ String.join (s.data.map escapeChar) ++ "\""

/-- Array.prototype.join with separator "," (used as contentArray.join). -/
def joinComma : List String → String
  | [] => ""
  | [s] => s
  | s :: rest => s ++ "," ++ joinComma rest

/-- How JSON.stringify together with the safeStringify replacer renders a
primitive value: none means the value is undefined and its key is omitted;
functions become a "[Function: name]" string (or "[Function: anonymous]"),
symbols become their toString form. -/
def serializePrimValue : JsPrim → Option String
  | .null => some "null"
  | .undefined => none
  | .bool b => some (cond b "true" "false")
  | .num n => some (toString n)
  | .str s => some (quoteJson s)
  | .fn name =>
      some (quoteJson ("[Function: " ++ (if name = "" then "anonymous" else name) ++ "]"))
  | .sym d => some (quoteJson ("Symbol(" ++ d ++ ")"))

/-- Serialization of the ordered property list of one object, threading the
replacer WeakSet (the seen list) left to right, exactly as JSON.stringify
walks the own properties and calls the replacer on each value.  The
parameter f is the serializer for property values. -/
def stringifyFields (f : List Nat → JsVal → Option (Option String × List Nat)) :
    List Nat → List (String × JsVal) → Option (List String × List Nat)
  | seen, [] => some ([], seen)
  | seen, (k, v) :: rest =>
    match f seen v with
    | none => none
    | some (none, seen1) => stringifyFields f seen1 rest
    | some (some s, seen1) =>
      match stringifyFields f seen1 rest with
      | none => none
      | some (parts, seen2) => some ((quoteJson k ++ ":" ++ s) :: parts, seen2)

/-- The recursion inside safeStringify (src/unnamed/part_003): JSON.stringify
with a replacer that keeps a WeakSet of objects already seen; a value that is
an object already in the set is replaced by the string literal Circular.
Fuel makes the recursion structural; the totality theorem shows that
heap-length plus one fuel never runs out. -/
def stringifyVal (h : Heap) : Nat → List Nat → JsVal → Option (Option String × List Nat)
  | 0, _, _ => none
  | _ + 1, seen, .prim p => some (serializePrimValue p, seen)
  | fuel + 1, seen, .ref i =>
    if i ∈ seen then some (some (quoteJson "[Circular]"), seen)
    else
      match stringifyFields (stringifyVal h fuel) (i :: seen) (h.getD i []) with
      | none => none
      | some (parts, seen1) => some (some ("\x7b" ++ joinComma parts ++ "\x7d"), seen1)

/-- safeStringify over the heap model: JSON.stringify of the given value with
the circular-reference replacer, started with an empty seen set and enough
fuel for every object of the heap. -/
def safeStringify (h : Heap) (v : JsVal) : Option (Option String × List Nat) :=
  stringifyVal h (h.length + 1) [] v

/-- A value whose reference (if any) points inside the first n objects. -/
def refBoundB (n : Nat) : JsVal → Bool
  | .ref i => decide (i < n)
  | .prim _ => true

/-- A well-formed heap: every property value refers only to objects that the
heap actually contains (always true of a real JavaScript object graph). -/
def heapWF (h : Heap) : Prop :=
  ∀ fields ∈ h, ∀ kv ∈ fields, refBoundB h.length (Prod.snd kv) = true

instance : DecidablePred heapWF := fun h =>
  inferInstanceAs (Decidable (∀ fields ∈ h, ∀ kv ∈ fields, refBoundB h.length (Prod.snd kv) = true))

/-- Count of heap objects not yet in the seen set: the termination measure of
the safeStringify recursion. -/
def unseenCount (h : Heap) (seen : List Nat) : Nat :=
  ((Finset.range h.length).filter (fun i => i ∉ seen)).card

/-- The Seq severity enum.  Modelled from the spec: the SeqLevel enum file
(src/lib/enums/seq-level.enum.ts) is not under src; the spec lists the level
names Verbose, Debug, Information, Warning, Error, Fatal and the wire format
serializes Level as the level name. -/
inductive SeqLevel where
  | Verbose
  | Debug
  | Information
  | Warning
  | Error
  | Fatal
  deriving DecidableEq, Repr

/-- The string value of a SeqLevel member (string enum). -/
def SeqLevel.name : SeqLevel → String
  | .Verbose => "Verbose"
  | .Debug => "Debug"
  | .Information => "Information"
  | .Warning => "Warning"
  | .Error => "Error"
  | .Fatal => "Fatal"

/-- A log event (src/lib/interfaces/seq-event.interface.ts).  Timestamp is
the ISO-8601 rendering of the Date; property values are modelled as JSON
primitives; none models an undefined optional field. -/
structure SeqEvent where
  Timestamp : String
  Level : SeqLevel
  MessageTemplate : String
  Exception : Option String := none
  Properties : Option (List (String × JsPrim)) := none
  deriving DecidableEq, Repr

/-- The resolved logger configuration (SeqLoggerOptions interface fields a
well-typed SeqLoggerCore instance relies on). -/
structure SeqLoggerOptions where
  serverUrl : String
  apiKey : Option String := none
  serviceName : Option String := none
  batchPayloadLimit : Nat
  eventBodyLimit : Nat
  maxRetries : Nat
  delay : Nat
  timeout : Nat
  metaFieldName : String
  deriving DecidableEq, Repr

/-- The defaultOptions object of mergeOptionsWithDefaults. -/
def defaultOptions : SeqLoggerOptions :=
  { serverUrl := "http://localhost:5341"
    batchPayloadLimit := 10485760
    eventBodyLimit := 262144
    maxRetries := 5
    delay := 5
    timeout := 30
    metaFieldName := "meta" }

/-- One key of a caller-supplied Partial options object: none when the key is
absent, some none when the key is present with value undefined, some (some v)
when a value is supplied. -/
abbrev PartialField (α : Type) := Option (Option α)

/-- The runtime object a caller passes to the SeqLoggerCore constructor:
every key of the options interface may be absent, undefined or a value. -/
structure PartialSeqLoggerOptions where
  serverUrl : PartialField String := none
  apiKey : PartialField String := none
  serviceName : PartialField String := none
  batchPayloadLimit : PartialField Nat := none
  eventBodyLimit : PartialField Nat := none
  maxRetries : PartialField Nat := none
  delay : PartialField Nat := none
  timeout : PartialField Nat := none
  metaFieldName : PartialField String := none
  deriving DecidableEq, Repr

/-- The runtime shape of the merged options object: each key holds a value or
is undefined (none). -/
structure MergedSeqLoggerOptions where
  serverUrl : Option String
  apiKey : Option String
  serviceName : Option String
  batchPayloadLimit : Option Nat
  eventBodyLimit : Option Nat
  maxRetries : Option Nat
  delay : Option Nat
  timeout : Option Nat
  metaFieldName : Option String
  deriving DecidableEq, Repr

/-- Object-spread semantics for one key: a key present on the second object
(even with value undefined) overwrites the first object, an absent key keeps
the first object value. -/
def spreadKey {α : Type} (supplied : PartialField α) (dflt : Option α) : Option α :=
  match supplied with
  | none => dflt
  | some v => v

/-- mergeOptionsWithDefaults from SeqLoggerCore: the object spread of the
caller options over the default options, key by key. -/
def mergeOptionsWithDefaults (options : PartialSeqLoggerOptions) : MergedSeqLoggerOptions :=
  { serverUrl := spreadKey options.serverUrl (some defaultOptions.serverUrl)
    apiKey := spreadKey options.apiKey none
    serviceName := spreadKey options.serviceName none
    batchPayloadLimit := spreadKey options.batchPayloadLimit (some defaultOptions.batchPayloadLimit)
    eventBodyLimit := spreadKey options.eventBodyLimit (some defaultOptions.eventBodyLimit)
    maxRetries := spreadKey options.maxRetries (some defaultOptions.maxRetries)
    delay := spreadKey options.delay (some defaultOptions.delay)
    timeout := spreadKey options.timeout (some defaultOptions.timeout)
    metaFieldName := spreadKey options.metaFieldName (some defaultOptions.metaFieldName) }

/-- JSON.stringify of the property bag of an event (undefined values have
their keys omitted, as the replacer leaves undefined in place). -/
def serializeProps (props : List (String × JsPrim)) : String :=
  "\x7b" ++
    joinComma (props.filterMap
      (fun kv => (serializePrimValue kv.2).map (fun s => quoteJson kv.1 ++ ":" ++ s))) ++
  "\x7d"

/-- safeStringify of a SeqEvent value, with keys in the order the repository
constructs its event literals (Timestamp, Level, MessageTemplate, Properties,
Exception); an undefined optional field is omitted. -/
def serializeEvent (e : SeqEvent) : String :=
  "\x7b" ++
    joinComma (List.filterMap id
      [some ("\"Timestamp\":" ++ quoteJson e.Timestamp),
       some ("\"Level\":" ++ quoteJson e.Level.name),
       some ("\"MessageTemplate\":" ++ quoteJson e.MessageTemplate),
       e.Properties.map (fun ps => "\"Properties\":" ++ serializeProps ps),
       e.Exception.map (fun s => "\"Exception\":" ++ quoteJson s)]) ++
  "\x7d"

/-- The fixed opening tag of the batch envelope. -/
def START_TAG : String := "\x7b\"Events\":["

/-- The fixed closing tag of the batch envelope. -/
def END_TAG : String := "]\x7d"

/-- Byte length of the fixed envelope parts. -/
def TAG_LENGTH : Nat := byteLen START_TAG + byteLen END_TAG

/-- Property access with the optional-chaining semantics of
event.Properties?.key: undefined when Properties is undefined or lacks key. -/
def propLookup (e : SeqEvent) (k : String) : JsPrim :=
  match e.Properties with
  | none => .undefined
  | some ps => (ps.lookup k).getD .undefined

/-- A possibly-undefined string as a property value. -/
def jsOfOptionStr : Option String → JsPrim
  | none => .undefined
  | some s => .str s

/-- handleLargeEvent of SeqLoggerCore: the placeholder event substituted for
an event whose serialized body exceeds eventBodyLimit. -/
def handleLargeEvent (options : SeqLoggerOptions) (event : SeqEvent)
    (currentBodyLen eventBodyLimit : Nat) : SeqEvent :=
  let partialMessage := event.MessageTemplate.take 50
  { Timestamp := event.Timestamp
    Level := event.Level
    MessageTemplate := "[\x7bcontext\x7d] - (Log too large) " ++ partialMessage ++ "..."
    Exception := none
    Properties := some
      [("serviceName", jsOfOptionStr options.serviceName),
       ("context", .str "jasonsoft/nestjs-seq"),
       ("hostname", propLookup event "hostname"),
       ("logger", propLookup event "logger"),
       ("message", .str ("Event body is larger than " ++ toString eventBodyLimit
                          ++ " bytes: " ++ toString currentBodyLen))] }

/-- The serialized form and byte length the send loop ends up using for one
event: the event itself when its body fits eventBodyLimit, otherwise the
re-serialized placeholder from handleLargeEvent. -/
def finalForm (options : SeqLoggerOptions) (e : SeqEvent) : String × Nat :=
  let jsonStr := serializeEvent e
  let jsonLen := byteLen jsonStr
  if jsonLen > options.eventBodyLimit then
    let s := serializeEvent (handleLargeEvent options e jsonLen options.eventBodyLimit)
    (s, byteLen s)
  else (jsonStr, jsonLen)

/-- The batch-building while loop of SeqLoggerCore.send, rendered as
structural recursion over the FIFO queue: contentLen is the accumulator
(started at TAG_LENGTH), and the loop stops as soon as the next serialized
event would push the accumulator past batchPayloadLimit.  Returns the
contentArray, the events left in the queue and the final accumulator. -/
def buildBatchGo (options : SeqLoggerOptions) :
    Nat → List SeqEvent → List String × List SeqEvent × Nat
  | contentLen, [] => ([], [], contentLen)
  | contentLen, e :: rest =>
    let f := finalForm options e
    if contentLen + f.2 > options.batchPayloadLimit then
      ([], e :: rest, contentLen)
    else
      let r := buildBatchGo options (contentLen + f.2) rest
      (f.1 :: r.1, r.2.1, r.2.2)

/-- One batch-building pass of send, starting from the envelope overhead. -/
def buildBatch (options : SeqLoggerOptions) (queue : List SeqEvent) :
    List String × List SeqEvent × Nat :=
  buildBatchGo options TAG_LENGTH queue

/-- The full HTTP body posted for a batch: the fixed tags around the
comma-joined serialized events. -/
def envelope (contentArray : List String) : String :=
  START_TAG ++ joinComma contentArray ++ END_TAG

/-- The mutable state of a SeqLoggerCore instance: the resolved options, the
FIFO EventCollection, the isRunning flag and the debounce timer handle
(some ms = a timer armed with that delay is pending, none = no timer). -/
structure CoreState where
  options : SeqLoggerOptions
  events : List SeqEvent
  isRunning : Bool
  timer : Option Nat
  deriving DecidableEq, Repr

/-- SeqLoggerCore.start: arms a timer with the given delay, unless one is
already pending (in which case nothing changes). -/
def coreStart (s : CoreState) (ms : Nat) : CoreState :=
  if s.timer.isSome then s else { s with timer := some ms }

/-- SeqLoggerCore.emit: a no-op once the logger is not running; otherwise the
event is appended to the queue (EventCollection.add pushes at the tail) and a
2000 ms debounce timer is armed if none is pending. -/
def coreEmit (s : CoreState) (e : SeqEvent) : CoreState :=
  if s.isRunning = false then s
  else coreStart { s with events := s.events ++ [e] } 2000

/-- SeqLoggerCore.close: a warning-only no-op when already closed; otherwise
clears isRunning and calls start with the default zero delay (which keeps any
already pending timer untouched). -/
def coreClose (s : CoreState) : CoreState :=
  if s.isRunning = false then s
  else coreStart { s with isRunning := false } 0

/-- Modelled from the spec: the NETWORK_ERRORS constant is declared in
seq-logger.constants.ts, which is not under src.  The spec classifies
connection refused/reset, timeouts and DNS failures as network-level
retryable errors. -/
def NETWORK_ERRORS : List String :=
  ["ECONNREFUSED", "ECONNRESET", "ETIMEDOUT", "ECONNABORTED", "ENOTFOUND", "EAI_AGAIN"]

/-- The information the catch block of send reads off a failed axios call:
the HTTP status when a response arrived, and the network error code. -/
structure SendError where
  status : Option Nat := none
  code : Option String := none
  deriving DecidableEq, Repr

/-- The result of one axios.post attempt. -/
inductive AttemptResult where
  | ok
  | err (e : SendError)
  deriving DecidableEq, Repr

/-- The retry classification of the catch block: a response status in the
500..599 range, or an error code listed in NETWORK_ERRORS, leads to a retry
(when attempts remain); anything else stops the retry loop. -/
def isRetryableError (e : SendError) : Bool :=
  (match e.status with
   | some st => decide (500 ≤ st) && decide (st ≤ 599)
   | none => false)
  ||
  (match e.code with
   | some c => NETWORK_ERRORS.contains c
   | none => false)

/-- The body of the retry for-loop of send, from attempt number times with
remaining further attempts allowed.  Each trace entry records the content
posted and, when the loop continues, the sleep before the next attempt.
The outcomes function gives the result of each attempt. -/
def retryGo (delay : Nat) (content : String) (outcomes : Nat → AttemptResult) :
    Nat → Nat → List (String × Option Nat) × Bool
  | 0, times =>
    match outcomes times with
    | .ok => ([(content, none)], true)
    | .err _ => ([(content, none)], false)
  | remaining + 1, times =>
    match outcomes times with
    | .ok => ([(content, none)], true)
    | .err e =>
      if isRetryableError e then
        let r := retryGo delay content outcomes remaining (times + 1)
        ((content, some delay) :: r.1, r.2)
      else ([(content, none)], false)

/-- The whole retry for-loop over Array(maxRetries).keys(): up to maxRetries
attempts with the same content, sleeping delay seconds between retryable
failures; with maxRetries zero the loop body never runs.  Returns the attempt
trace and whether the batch was acknowledged. -/
def sendBatchWithRetries (options : SeqLoggerOptions) (content : String)
    (outcomes : Nat → AttemptResult) : List (String × Option Nat) × Bool :=
  if options.maxRetries = 0 then ([], false)
  else retryGo options.delay content outcomes (options.maxRetries - 1) 0

/-- The recursive send cycle: each pass builds one batch from the queue
front, posts it with retries, and recurses while the queue is non-empty; on
the first successful post ever the logger emits its initialization-succeeded
event (modelled by appending initEvent to the queue and setting the
isInitEvent flag).  outcomes gives the axios results per pass and per
attempt; fuel bounds the recursion depth of the model. -/
def sendPasses (options : SeqLoggerOptions) (initEvent : SeqEvent)
    (outcomes : Nat → Nat → AttemptResult) :
    Nat → Bool → List SeqEvent → List (List String) × List SeqEvent × Bool
  | 0, isInitEvent, queue => ([], queue, isInitEvent)
  | fuel + 1, isInitEvent, queue =>
    match queue with
    | [] => ([], [], isInitEvent)
    | e :: rest0 =>
      let r := buildBatch options (e :: rest0)
      let batch := r.1
      let rest := r.2.1
      if batch = [] then
        sendPasses options initEvent (fun n => outcomes (n + 1)) fuel isInitEvent rest
      else
        let post := sendBatchWithRetries options (envelope batch) (outcomes 0)
        let isInit2 := isInitEvent || post.2
        let queue2 := if post.2 && !isInitEvent then rest ++ [initEvent] else rest
        let r2 := sendPasses options initEvent (fun n => outcomes (n + 1)) fuel isInit2 queue2
        (batch :: r2.1, r2.2)

theorem byteLen_append (a b : String) : byteLen (a ++ b) = byteLen a + byteLen b := by
  simp [byteLen, String.data_append]

theorem byteLen_comma : byteLen "," = 1 := by decide

theorem joinComma_byteLen :
    ∀ bs : List String, bs ≠ [] →
      byteLen (joinComma bs) = (bs.map byteLen).sum + (bs.length - 1)
  | [], h => absurd rfl h
  | [s], _ => by simp [joinComma]
  | s :: t :: rest, _ => by
    have ih := joinComma_byteLen (t :: rest) (by simp)
    simp only [joinComma, byteLen_append, ih, byteLen_comma, List.map_cons, List.sum_cons,
      List.length_cons]
    omega

theorem finalForm_snd (options : SeqLoggerOptions) (e : SeqEvent) :
    (finalForm options e).2 = byteLen (finalForm options e).1 := by
  unfold finalForm
  by_cases h : byteLen (serializeEvent e) > options.eventBodyLimit <;> simp [h]

theorem buildBatchGo_front (options : SeqLoggerOptions) :
    ∀ (queue : List SeqEvent) (c : Nat), ∃ k,
      (buildBatchGo options c queue).1 = (queue.take k).map (fun e => (finalForm options e).1) ∧
      (buildBatchGo options c queue).2.1 = queue.drop k
  | [], c => ⟨0, by simp [buildBatchGo]⟩
  | e :: rest, c => by
    by_cases h : c + (finalForm options e).2 > options.batchPayloadLimit
    · exact ⟨0, by simp [buildBatchGo, h]⟩
    · obtain ⟨k, hb, hr⟩ := buildBatchGo_front options rest (c + (finalForm options e).2)
      exact ⟨k + 1, by simp [buildBatchGo, h, hb, hr]⟩

theorem buildBatchGo_contentLen (options : SeqLoggerOptions) :
    ∀ (queue : List SeqEvent) (c : Nat),
      (buildBatchGo options c queue).2.2
        = c + (((buildBatchGo options c queue).1.map byteLen).sum) ∧
      ((buildBatchGo options c queue).1 ≠ [] →
        (buildBatchGo options c queue).2.2 ≤ options.batchPayloadLimit)
  | [], c => by simp [buildBatchGo]
  | e :: rest, c => by
    by_cases h : c + (finalForm options e).2 > options.batchPayloadLimit
    · simp [buildBatchGo, h]
    · obtain ⟨hsum, hle⟩ := buildBatchGo_contentLen options rest (c + (finalForm options e).2)
      have hff := finalForm_snd options e
      constructor
      · simp only [buildBatchGo, if_neg h, List.map_cons, List.sum_cons, hsum]
        omega
      · intro _
        by_cases hb : (buildBatchGo options (c + (finalForm options e).2) rest).1 = []
        · simp only [buildBatchGo, if_neg h, hsum, hb, List.map_nil, List.sum_nil]
          omega
        · simpa [buildBatchGo, if_neg h] using hle hb

theorem retryGo_all_retryable (delay : Nat) (content : String)
    (outcomes : Nat → AttemptResult)
    (h : ∀ i, ∃ e, outcomes i = .err e ∧ isRetryableError e = true) :
    ∀ remaining times,
      retryGo delay content outcomes remaining times
        = (List.replicate remaining (content, some delay) ++ [(content, none)], false)
  | 0, times => by
    obtain ⟨e, he, _⟩ := h times
    simp [retryGo, he]
  | remaining + 1, times => by
    obtain ⟨e, he, hr⟩ := h times
    have ih := retryGo_all_retryable delay content outcomes h remaining (times + 1)
    simp [retryGo, he, hr, ih, List.replicate_succ]

theorem sendPasses_takes_front (options : SeqLoggerOptions) (initEvent : SeqEvent) :
    ∀ (fuel : Nat) (outcomes : Nat → Nat → AttemptResult) (queue : List SeqEvent), ∃ k,
      ((sendPasses options initEvent outcomes fuel true queue).1.flatten
        = (queue.take k).map (fun e => (finalForm options e).1)) ∧
      (sendPasses options initEvent outcomes fuel true queue).2.1 = queue.drop k
  | 0, outcomes, queue => ⟨0, by simp [sendPasses]⟩
  | fuel + 1, outcomes, [] => ⟨0, by simp [sendPasses]⟩
  | fuel + 1, outcomes, e :: rest0 => by
    obtain ⟨j, hb, hr⟩ := buildBatchGo_front options (e :: rest0) TAG_LENGTH
    by_cases hempty : (buildBatch options (e :: rest0)).1 = []
    · have hj : (e :: rest0).take j = [] := by
        have := hempty
        rw [buildBatch] at this
        rw [hb] at this
        exact List.map_eq_nil_iff.mp this
      have hj0 : (buildBatch options (e :: rest0)).2.1 = e :: rest0 := by
        rw [buildBatch, hr]
        cases j with
        | zero => simp
        | succ n => simp at hj
      obtain ⟨k, hk1, hk2⟩ :=
        sendPasses_takes_front options initEvent fuel (fun n => outcomes (n + 1)) (e :: rest0)
      refine ⟨k, ?_, ?_⟩
      · simpa [sendPasses, hempty, hj0] using hk1
      · simpa [sendPasses, hempty, hj0] using hk2
    · obtain ⟨k, hk1, hk2⟩ :=
        sendPasses_takes_front options initEvent fuel (fun n => outcomes (n + 1))
          ((e :: rest0).drop j)
      refine ⟨j + k, ?_, ?_⟩
      · have hb2 : (buildBatch options (e :: rest0)).1
            = ((e :: rest0).take j).map (fun ev => (finalForm options ev).1) := by
          rw [buildBatch]; exact hb
        have hr2 : (buildBatch options (e :: rest0)).2.1 = (e :: rest0).drop j := by
          rw [buildBatch]; exact hr
        have hstep1 : (sendPasses options initEvent outcomes (fuel + 1) true (e :: rest0)).1
            = (buildBatch options (e :: rest0)).1
              :: (sendPasses options initEvent (fun n => outcomes (n + 1)) fuel true
                  ((e :: rest0).drop j)).1 := by
          simp [sendPasses, if_neg hempty, hr2]
        rw [hstep1, List.flatten_cons, hb2, hk1, ← List.map_append, ← List.take_add]
      · have hr2 : (buildBatch options (e :: rest0)).2.1 = (e :: rest0).drop j := by
          rw [buildBatch]; exact hr
        have hstep : (sendPasses options initEvent outcomes (fuel + 1) true (e :: rest0)).2.1
            = (sendPasses options initEvent (fun n => outcomes (n + 1)) fuel true
                ((e :: rest0).drop j)).2.1 := by
          simp [sendPasses, if_neg hempty, hr2]
        rw [hstep, hk2, List.drop_drop, Nat.add_comm]

theorem unseenCount_mono (h : Heap) (sn sn2 : List Nat) (hsub : sn ⊆ sn2) :
    unseenCount h sn2 ≤ unseenCount h sn := by
  apply Finset.card_le_card
  apply Finset.monotone_filter_right
  intro i hi hmem
  exact hi (hsub hmem)

theorem unseenCount_cons_lt (h : Heap) (sn : List Nat) (i : Nat)
    (hi : i < h.length) (hnot : i ∉ sn) :
    unseenCount h (i :: sn) < unseenCount h sn := by
  apply Finset.card_lt_card
  rw [Finset.ssubset_iff_of_subset]
  · exact ⟨i, Finset.mem_filter.mpr ⟨Finset.mem_range.mpr hi, hnot⟩,
      fun hc => (Finset.mem_filter.mp hc).2 (List.mem_cons_self i sn)⟩
  · apply Finset.monotone_filter_right
    intro j hj hmem
    exact hj (List.mem_cons_of_mem i hmem)

theorem stringifyFields_seen_mono
    (f : List Nat → JsVal → Option (Option String × List Nat))
    (hf : ∀ sn v r sn2, f sn v = some (r, sn2) → sn ⊆ sn2) :
    ∀ (sn : List Nat) (fields : List (String × JsVal)) (parts : List String) (sn2 : List Nat),
      stringifyFields f sn fields = some (parts, sn2) → sn ⊆ sn2
  | sn, [], parts, sn2, hE => by
    simp only [stringifyFields, Option.some.injEq, Prod.mk.injEq] at hE
    rw [← hE.2]
    exact List.Subset.refl sn
  | sn, (k, v) :: rest, parts, sn2, hE => by
    cases hfv : f sn v with
    | none => simp [stringifyFields, hfv] at hE
    | some pr =>
      obtain ⟨r, sn1⟩ := pr
      have hsub1 : sn ⊆ sn1 := hf sn v r sn1 hfv
      cases r with
      | none =>
        have hE2 : stringifyFields f sn1 rest = some (parts, sn2) := by
          simpa [stringifyFields, hfv] using hE
        exact hsub1.trans (stringifyFields_seen_mono f hf sn1 rest parts sn2 hE2)
      | some s =>
        cases hrest : stringifyFields f sn1 rest with
        | none => simp [stringifyFields, hfv, hrest] at hE
        | some pr2 =>
          obtain ⟨parts2, sn3⟩ := pr2
          have hE2 : sn3 = sn2 := by
            simp only [stringifyFields, hfv, Option.some.injEq, Prod.mk.injEq, hrest] at hE
            exact hE.2
          exact hsub1.trans
            (hE2 ▸ stringifyFields_seen_mono f hf sn1 rest parts2 sn3 hrest)

theorem stringifyVal_seen_mono (h : Heap) :
    ∀ (fuel : Nat) (sn : List Nat) (v : JsVal) (r : Option String) (sn2 : List Nat),
      stringifyVal h fuel sn v = some (r, sn2) → sn ⊆ sn2
  | 0, sn, v, r, sn2, hE => by cases hE
  | fuel + 1, sn, .prim p, r, sn2, hE => by
    simp only [stringifyVal, Option.some.injEq, Prod.mk.injEq] at hE
    rw [← hE.2]
    exact List.Subset.refl sn
  | fuel + 1, sn, .ref i, r, sn2, hE => by
    by_cases hi : i ∈ sn
    · simp only [stringifyVal, if_pos hi, Option.some.injEq, Prod.mk.injEq] at hE
      rw [← hE.2]
      exact List.Subset.refl sn
    · simp only [stringifyVal, if_neg hi] at hE
      cases hflds : stringifyFields (stringifyVal h fuel) (i :: sn) (h.getD i []) with
      | none => rw [hflds] at hE; cases hE
      | some pr =>
        obtain ⟨parts, sn1⟩ := pr
        rw [hflds] at hE
        simp only [Option.some.injEq, Prod.mk.injEq] at hE
        have hsub : (i :: sn) ⊆ sn1 :=
          stringifyFields_seen_mono (stringifyVal h fuel)
            (fun sn v r sn2 hfv => stringifyVal_seen_mono h fuel sn v r sn2 hfv)
            (i :: sn) (h.getD i []) parts sn1 hflds
        rw [← hE.2]
        exact fun a ha => hsub (List.mem_cons_of_mem i ha)

theorem stringifyFields_total (hH : Heap)
    (f : List Nat → JsVal → Option (Option String × List Nat)) (bound : Nat)
    (hfSome : ∀ sn v, refBoundB hH.length v = true → unseenCount hH sn < bound →
      (f sn v).isSome)
    (hfMono : ∀ sn v r sn2, f sn v = some (r, sn2) → sn ⊆ sn2) :
    ∀ (sn : List Nat) (fields : List (String × JsVal)),
      (∀ kv ∈ fields, refBoundB hH.length (Prod.snd kv) = true) →
      unseenCount hH sn < bound →
      (stringifyFields f sn fields).isSome
  | sn, [], _, _ => by simp [stringifyFields]
  | sn, (k, v) :: rest, hkv, hcnt => by
    have hv : refBoundB hH.length v = true := hkv (k, v) (List.mem_cons_self _ _)
    have hs := hfSome sn v hv hcnt
    cases hfv : f sn v with
    | none => rw [hfv] at hs; cases hs
    | some pr =>
      obtain ⟨r, sn1⟩ := pr
      have hcnt1 : unseenCount hH sn1 < bound :=
        Nat.lt_of_le_of_lt (unseenCount_mono hH sn sn1 (hfMono sn v r sn1 hfv)) hcnt
      have hrest : (∀ kv ∈ rest, refBoundB hH.length (Prod.snd kv) = true) :=
        fun kv hm => hkv kv (List.mem_cons_of_mem _ hm)
      have ih := stringifyFields_total hH f bound hfSome hfMono sn1 rest hrest hcnt1
      cases r with
      | none => simpa [stringifyFields, hfv] using ih
      | some s =>
        cases hrr : stringifyFields f sn1 rest with
        | none => rw [hrr] at ih; cases ih
        | some pr2 => simp [stringifyFields, hfv, hrr]

theorem stringifyVal_total (hH : Heap) (hwf : heapWF hH) :
    ∀ (fuel : Nat) (sn : List Nat) (v : JsVal),
      refBoundB hH.length v = true → unseenCount hH sn < fuel →
      (stringifyVal hH fuel sn v).isSome
  | 0, sn, v, _, hcnt => absurd hcnt (Nat.not_lt_zero _)
  | fuel + 1, sn, .prim p, _, _ => by simp [stringifyVal]
  | fuel + 1, sn, .ref i, hv, hcnt => by
    by_cases hi : i ∈ sn
    · simp [stringifyVal, hi]
    · have hilt : i < hH.length := by simpa [refBoundB] using hv
      have hfieldsWF : ∀ kv ∈ hH.getD i [], refBoundB hH.length (Prod.snd kv) = true := by
        intro kv hm
        have hget : hH.getD i [] ∈ hH := by
          rw [List.getD_eq_getElem?_getD, List.getElem?_eq_getElem hilt]
          exact List.getElem_mem _
        exact hwf (hH.getD i []) hget kv hm
      have hcnt2 : unseenCount hH (i :: sn) < fuel := by
        have := unseenCount_cons_lt hH sn i hilt hi
        omega
      have htot := stringifyFields_total hH (stringifyVal hH fuel) fuel
        (fun sn v hv hc => stringifyVal_total hH hwf fuel sn v hv hc)
        (fun sn v r sn2 hfv => stringifyVal_seen_mono hH fuel sn v r sn2 hfv)
        (i :: sn) (hH.getD i []) hfieldsWF hcnt2
      cases hflds : stringifyFields (stringifyVal hH fuel) (i :: sn) (hH.getD i []) with
      | none => rw [hflds] at htot; cases htot
      | some pr =>
        obtain ⟨parts, sn1⟩ := pr
        simp only [stringifyVal, if_neg hi, hflds, Option.isSome_some]

theorem unseenCount_le_length (h : Heap) : unseenCount h [] ≤ h.length := by
  calc ((Finset.range h.length).filter (fun i => i ∉ ([] : List Nat))).card
      ≤ (Finset.range h.length).card := Finset.card_filter_le _ _
    _ = h.length := Finset.card_range _

theorem stringifyVal_ref_inner_some (h : Heap) (fuel : Nat) (sn : List Nat) (i : Nat)
    (r : Option String) (sn2 : List Nat)
    (hE : stringifyVal h (fuel + 1) sn (JsVal.ref i) = some (r, sn2)) :
    ∃ s, r = some s := by
  by_cases hi : i ∈ sn
  · simp only [stringifyVal, if_pos hi, Option.some.injEq, Prod.mk.injEq] at hE
    exact ⟨quoteJson "[Circular]", hE.1.symm⟩
  · simp only [stringifyVal, if_neg hi] at hE
    cases hflds : stringifyFields (stringifyVal h fuel) (i :: sn) (h.getD i []) with
    | none => rw [hflds] at hE; cases hE
    | some pr =>
      obtain ⟨parts, sn1⟩ := pr
      rw [hflds] at hE
      simp only [Option.some.injEq, Prod.mk.injEq] at hE
      exact ⟨"\x7b" ++ joinComma parts ++ "\x7d", hE.1.symm⟩

theorem buildBatch_eq (options : SeqLoggerOptions) (queue : List SeqEvent) :
    buildBatch options queue = buildBatchGo options TAG_LENGTH queue := rfl

theorem retryGo_content_const (delay : Nat) (content : String)
    (outcomes : Nat → AttemptResult) :
    ∀ (remaining times : Nat),
      ∀ p ∈ (retryGo delay content outcomes remaining times).1, p.1 = content
  | 0, times => by
    intro p hp
    cases houtcome : outcomes times with
    | ok => rw [retryGo, houtcome] at hp; simp at hp; rw [hp]
    | err e => rw [retryGo, houtcome] at hp; simp at hp; rw [hp]
  | remaining + 1, times => by
    intro p hp
    cases houtcome : outcomes times with
    | ok => rw [retryGo, houtcome] at hp; simp at hp; rw [hp]
    | err e =>
      simp only [retryGo, houtcome] at hp
      by_cases hr : isRetryableError e
      · rw [if_pos hr] at hp
        rcases List.mem_cons.mp hp with hp1 | hp2
        · rw [hp1]
        · exact retryGo_content_const delay content outcomes remaining (times + 1) p hp2
      · rw [if_neg hr] at hp; simp at hp; rw [hp]

/-- A minimal log event used as a concrete input in witnesses and
counterexamples. -/
def exEvent : SeqEvent :=
  { Timestamp := "2024-01-01T00:00:00.000Z"
    Level := SeqLevel.Information
    MessageTemplate := "" }

/-- A configuration whose batchPayloadLimit is smaller than the envelope
overhead itself. -/
def exOptsTiny : SeqLoggerOptions :=
  { serverUrl := "http://localhost:5341"
    batchPayloadLimit := 10
    eventBodyLimit := 262144
    maxRetries := 5
    delay := 5
    timeout := 30
    metaFieldName := "meta" }

/-- C1: the claim asserts that one batch-building pass of send always
consumes at least one event when the queue is non-empty, even when the first
(possibly placeholder) event alone would push the accumulator past
batchPayloadLimit.  Counterexample: with batchPayloadLimit 10 (smaller than
the fixed tag overhead plus any event) and a one-event queue, the pass
returns an empty batch and consumes nothing, so the claimed strictly
positive progress fails and the send cycle recurses on the unchanged
queue. -/
theorem c1_counterexample :
    ([exEvent] : List SeqEvent) ≠ [] ∧
    (buildBatch exOptsTiny [exEvent]).1 = [] ∧
    (buildBatch exOptsTiny [exEvent]).2.1 = [exEvent] := by
  refine ⟨by simp, ?_, ?_⟩ <;> decide

/-- C1 (amended): a batch-building pass of send consumes at least one event
whenever the queue is non-empty, provided the first event in its final form
(its placeholder form when its serialized body exceeds eventBodyLimit) fits
within batchPayloadLimit together with the envelope overhead; the consumed
event is sent in that final form at the head of the batch.  Without that
fitness condition the pass returns an empty batch and consumes nothing. -/
theorem c1_progress (options : SeqLoggerOptions) (e : SeqEvent) (rest : List SeqEvent)
    (h : TAG_LENGTH + (finalForm options e).2 ≤ options.batchPayloadLimit) :
    (buildBatch options (e :: rest)).1 ≠ [] ∧
    (buildBatch options (e :: rest)).1.head? = some (finalForm options e).1 ∧
    (buildBatch options (e :: rest)).2.1.length < (e :: rest).length := by
  have hnot : ¬ (TAG_LENGTH + (finalForm options e).2 > options.batchPayloadLimit) := by
    omega
  obtain ⟨k, _, hr⟩ := buildBatchGo_front options rest (TAG_LENGTH + (finalForm options e).2)
  refine ⟨?_, ?_, ?_⟩
  · simp [buildBatch_eq, buildBatchGo, if_neg hnot]
  · simp [buildBatch_eq, buildBatchGo, if_neg hnot]
  · simp only [buildBatch_eq, buildBatchGo, if_neg hnot, hr]
    have hlen := List.length_drop k rest
    have hle := List.Sublist.length_le (List.drop_sublist k rest)
    simp only [List.length_cons]
    omega

/-- C1 witness: with the default limits the fitness hypothesis holds for the
concrete event, and the pass consumes it. -/
theorem c1_progress_witness :
    TAG_LENGTH + (finalForm defaultOptions exEvent).2 ≤ defaultOptions.batchPayloadLimit ∧
    ((buildBatch defaultOptions [exEvent]).1 ≠ [] ∧
     (buildBatch defaultOptions [exEvent]).1.head? = some (finalForm defaultOptions exEvent).1 ∧
     (buildBatch defaultOptions [exEvent]).2.1.length < ([exEvent] : List SeqEvent).length) :=
  ⟨by decide, c1_progress defaultOptions exEvent [] (by decide)⟩

/-- A running shipper whose debounce timer (armed by an earlier emit) is
still pending. -/
def exStatePending : CoreState :=
  { options := defaultOptions
    events := [exEvent]
    isRunning := true
    timer := some 2000 }

/-- A running shipper with no pending timer. -/
def exStateIdle : CoreState :=
  { options := defaultOptions
    events := [exEvent]
    isRunning := true
    timer := none }

/-- C2: the claim asserts that close on a running shipper schedules the
drain send cycle with zero delay even if a debounce timer armed by an
earlier emit is still pending.  Counterexample: on a running state whose
debounce timer is pending with 2000 ms, close leaves that timer in place
(start returns early when a timer handle exists), so no zero-delay send is
scheduled. -/
theorem c2_counterexample :
    exStatePending.isRunning = true ∧
    exStatePending.timer = some 2000 ∧
    (coreClose exStatePending).timer = some 2000 ∧
    (coreClose exStatePending).timer ≠ some 0 := by
  decide

/-- C2 (amended): close on a running shipper clears isRunning (so no
further emit enqueues), leaves the queue untouched, and schedules the send
cycle with zero delay only when no debounce timer is pending; when a timer
armed by an earlier emit is still pending, that timer is kept with its
original delay and performs the drain when it fires.  In either case a
timer is pending after close, so the drain cycle (which recurses until the
queue is empty) does run. -/
theorem c2_close_drains (s : CoreState) (h : s.isRunning = true) :
    (coreClose s).isRunning = false ∧
    (coreClose s).events = s.events ∧
    (coreClose s).timer = (if s.timer.isSome then s.timer else some 0) ∧
    (coreClose s).timer.isSome = true := by
  by_cases ht : s.timer.isSome <;>
    simp [coreClose, coreStart, h, ht]

/-- C2 witness: close on a running shipper with no pending timer. -/
theorem c2_close_drains_witness :
    exStateIdle.isRunning = true ∧
    ((coreClose exStateIdle).isRunning = false ∧
     (coreClose exStateIdle).events = exStateIdle.events ∧
     (coreClose exStateIdle).timer = (if exStateIdle.timer.isSome then exStateIdle.timer else some 0) ∧
     (coreClose exStateIdle).timer.isSome = true) :=
  ⟨rfl, c2_close_drains exStateIdle rfl⟩

/-- C6: emit on a shipper that is no longer running (isRunning false, as
after close) returns before touching anything: the event is not enqueued,
no timer is armed, and the state is exactly unchanged. -/
theorem c6_emit_after_close (s : CoreState) (e : SeqEvent) (h : s.isRunning = false) :
    coreEmit s e = s := by
  unfold coreEmit
  rw [if_pos h]

/-- C6 witness: emit on a freshly closed shipper is the identity. -/
theorem c6_emit_after_close_witness :
    (coreClose exStatePending).isRunning = false ∧
    coreEmit (coreClose exStatePending) exEvent = coreClose exStatePending :=
  ⟨by decide, c6_emit_after_close (coreClose exStatePending) exEvent (by decide)⟩

/-- C7: when an event serializes to more than eventBodyLimit bytes, the
batch loop substitutes the handleLargeEvent placeholder: it keeps the
original Timestamp and Level, its message template marks the log as too
large while retaining the first 50 characters of the original template,
and its properties carry a message recording both the observed serialized
size and the configured eventBodyLimit. -/
theorem c7_placeholder (options : SeqLoggerOptions) (e : SeqEvent)
    (h : byteLen (serializeEvent e) > options.eventBodyLimit) :
    (finalForm options e).1
      = serializeEvent (handleLargeEvent options e (byteLen (serializeEvent e))
          options.eventBodyLimit) ∧
    (handleLargeEvent options e (byteLen (serializeEvent e))
        options.eventBodyLimit).Timestamp = e.Timestamp ∧
    (handleLargeEvent options e (byteLen (serializeEvent e))
        options.eventBodyLimit).Level = e.Level ∧
    (handleLargeEvent options e (byteLen (serializeEvent e))
        options.eventBodyLimit).MessageTemplate
      = "[\x7bcontext\x7d] - (Log too large) " ++ e.MessageTemplate.take 50 ++ "..." ∧
    ("message", JsPrim.str ("Event body is larger than " ++ toString options.eventBodyLimit
        ++ " bytes: " ++ toString (byteLen (serializeEvent e))))
      ∈ (handleLargeEvent options e (byteLen (serializeEvent e))
          options.eventBodyLimit).Properties.getD [] := by
  refine ⟨?_, ?_, ?_, ?_, ?_⟩
  · simp only [finalForm, if_pos h]
  · simp [handleLargeEvent]
  · simp [handleLargeEvent]
  · simp [handleLargeEvent]
  · simp [handleLargeEvent]

/-- A configuration with a tiny eventBodyLimit, making the concrete event
oversized. -/
def exOptsSmallBody : SeqLoggerOptions :=
  { serverUrl := "http://localhost:5341"
    batchPayloadLimit := 10485760
    eventBodyLimit := 3
    maxRetries := 5
    delay := 5
    timeout := 30
    metaFieldName := "meta" }

/-- C7 witness: the concrete event is oversized for eventBodyLimit 3 and the
placeholder facts hold for it. -/
theorem c7_placeholder_witness :
    byteLen (serializeEvent exEvent) > exOptsSmallBody.eventBodyLimit ∧
    ((finalForm exOptsSmallBody exEvent).1
      = serializeEvent (handleLargeEvent exOptsSmallBody exEvent
          (byteLen (serializeEvent exEvent)) exOptsSmallBody.eventBodyLimit) ∧
     (handleLargeEvent exOptsSmallBody exEvent (byteLen (serializeEvent exEvent))
        exOptsSmallBody.eventBodyLimit).Timestamp = exEvent.Timestamp ∧
     (handleLargeEvent exOptsSmallBody exEvent (byteLen (serializeEvent exEvent))
        exOptsSmallBody.eventBodyLimit).Level = exEvent.Level ∧
     (handleLargeEvent exOptsSmallBody exEvent (byteLen (serializeEvent exEvent))
        exOptsSmallBody.eventBodyLimit).MessageTemplate
      = "[\x7bcontext\x7d] - (Log too large) " ++ exEvent.MessageTemplate.take 50 ++ "..." ∧
     ("message", JsPrim.str ("Event body is larger than "
          ++ toString exOptsSmallBody.eventBodyLimit
          ++ " bytes: " ++ toString (byteLen (serializeEvent exEvent))))
      ∈ (handleLargeEvent exOptsSmallBody exEvent (byteLen (serializeEvent exEvent))
          exOptsSmallBody.eventBodyLimit).Properties.getD []) :=
  ⟨by decide, c7_placeholder exOptsSmallBody exEvent (by decide)⟩

/-- A caller options object whose maxRetries key is present but explicitly
set to undefined. -/
def exPartialUndefined : PartialSeqLoggerOptions :=
  { maxRetries := some none }

/-- A caller options object with batchPayloadLimit present-but-undefined and
every other key absent. -/
def exPartialMix : PartialSeqLoggerOptions :=
  { batchPayloadLimit := some none }

/-- C8: the claim asserts that a key explicitly present with value undefined
retains its default.  Counterexample: object spread copies every own key of
the caller object, so a maxRetries key present with value undefined
overwrites the default 5 with undefined in the merged options. -/
theorem c8_counterexample :
    (mergeOptionsWithDefaults exPartialUndefined).maxRetries
        ≠ some defaultOptions.maxRetries ∧
    (mergeOptionsWithDefaults exPartialUndefined).maxRetries = none := by
  decide

/-- C8 (amended): the resolved configuration equals the defaults (serverUrl
localhost:5341, batchPayloadLimit 10485760, eventBodyLimit 262144,
maxRetries 5, delay 5, timeout 30, metaFieldName meta) overridden by every
key present on the caller object: an absent key retains its default, while a
present key wins even when its value is undefined (the default is then
replaced by undefined). -/
theorem c8_merge (p : PartialSeqLoggerOptions) :
    (p.serverUrl = none →
      (mergeOptionsWithDefaults p).serverUrl = some defaultOptions.serverUrl) ∧
    (∀ v, p.serverUrl = some v → (mergeOptionsWithDefaults p).serverUrl = v) ∧
    (p.batchPayloadLimit = none →
      (mergeOptionsWithDefaults p).batchPayloadLimit = some defaultOptions.batchPayloadLimit) ∧
    (∀ v, p.batchPayloadLimit = some v → (mergeOptionsWithDefaults p).batchPayloadLimit = v) ∧
    (p.eventBodyLimit = none →
      (mergeOptionsWithDefaults p).eventBodyLimit = some defaultOptions.eventBodyLimit) ∧
    (∀ v, p.eventBodyLimit = some v → (mergeOptionsWithDefaults p).eventBodyLimit = v) ∧
    (p.maxRetries = none →
      (mergeOptionsWithDefaults p).maxRetries = some defaultOptions.maxRetries) ∧
    (∀ v, p.maxRetries = some v → (mergeOptionsWithDefaults p).maxRetries = v) ∧
    (p.delay = none →
      (mergeOptionsWithDefaults p).delay = some defaultOptions.delay) ∧
    (∀ v, p.delay = some v → (mergeOptionsWithDefaults p).delay = v) ∧
    (p.timeout = none →
      (mergeOptionsWithDefaults p).timeout = some defaultOptions.timeout) ∧
    (∀ v, p.timeout = some v → (mergeOptionsWithDefaults p).timeout = v) ∧
    (p.metaFieldName = none →
      (mergeOptionsWithDefaults p).metaFieldName = some defaultOptions.metaFieldName) ∧
    (∀ v, p.metaFieldName = some v → (mergeOptionsWithDefaults p).metaFieldName = v) := by
  refine ⟨?_, ?_, ?_, ?_, ?_, ?_, ?_, ?_, ?_, ?_, ?_, ?_, ?_, ?_⟩ <;>
    first
      | (intro hk; simp [mergeOptionsWithDefaults, spreadKey, hk])
      | (intro v hk; simp [mergeOptionsWithDefaults, spreadKey, hk])

/-- C8 witness: on the concrete caller object, the absent maxRetries key
resolves to the default 5 while the present-but-undefined batchPayloadLimit
key resolves to undefined. -/
theorem c8_merge_witness :
    (mergeOptionsWithDefaults exPartialMix).maxRetries = some defaultOptions.maxRetries ∧
    (mergeOptionsWithDefaults exPartialMix).batchPayloadLimit = none :=
  ⟨(c8_merge exPartialMix).2.2.2.2.2.2.1 rfl,
   (c8_merge exPartialMix).2.2.2.1 none rfl⟩

/-- Fifteen copies of the minimal event. -/
def exQueue15 : List SeqEvent := List.replicate 15 exEvent

/-- A configuration whose batchPayloadLimit is saturated exactly by fifteen
serialized copies of the minimal event plus the tag overhead. -/
def exOptsComma : SeqLoggerOptions :=
  { serverUrl := "http://localhost:5341"
    batchPayloadLimit := TAG_LENGTH + 15 * byteLen (serializeEvent exEvent)
    eventBodyLimit := 262144
    maxRetries := 5
    delay := 5
    timeout := 30
    metaFieldName := "meta" }

/-- C3: the claim asserts that the full serialized body never exceeds
batchPayloadLimit plus the fixed envelope overhead.  Counterexample: the
accumulator of the batch loop counts event bytes but not the fourteen
joining commas, so a batch of fifteen events that saturates the limit
yields a body one byte longer than batchPayloadLimit plus TAG_LENGTH; no
event here is oversized, so the excess is exactly the uncounted commas. -/
theorem c3_counterexample :
    (∀ e ∈ exQueue15, byteLen (serializeEvent e) ≤ exOptsComma.eventBodyLimit) ∧
    byteLen (envelope (buildBatch exOptsComma exQueue15).1)
      > exOptsComma.batchPayloadLimit + TAG_LENGTH := by
  decide

/-- C3 (amended): for every batch built by send, the serialized body is at
most batchPayloadLimit plus one byte per joining comma (the accumulator
counts the envelope tags and the event bytes but not the commas, so the
bound is batchPayloadLimit plus batch length minus one); and every batch
element is either the serialization of a queue event whose own size is at
most eventBodyLimit, or the serialization of the handleLargeEvent
placeholder of an oversized queue event (the placeholder itself is not
re-checked against eventBodyLimit). -/
theorem c3_size_bounds (options : SeqLoggerOptions) (queue : List SeqEvent) :
    ((buildBatch options queue).1 ≠ [] →
      byteLen (envelope (buildBatch options queue).1)
        ≤ options.batchPayloadLimit + ((buildBatch options queue).1.length - 1)) ∧
    (∀ s ∈ (buildBatch options queue).1, ∃ e ∈ queue,
      (byteLen (serializeEvent e) ≤ options.eventBodyLimit ∧ s = serializeEvent e) ∨
      (options.eventBodyLimit < byteLen (serializeEvent e) ∧
        s = serializeEvent (handleLargeEvent options e (byteLen (serializeEvent e))
              options.eventBodyLimit))) := by
  constructor
  · intro hne
    rw [buildBatch_eq] at hne ⊢
    obtain ⟨hsum, hle⟩ := buildBatchGo_contentLen options queue TAG_LENGTH
    have hjc := joinComma_byteLen (buildBatchGo options TAG_LENGTH queue).1 hne
    have henv : byteLen (envelope (buildBatchGo options TAG_LENGTH queue).1)
        = byteLen START_TAG
          + byteLen (joinComma (buildBatchGo options TAG_LENGTH queue).1)
          + byteLen END_TAG := by
      simp [envelope, byteLen_append]
    have hle2 := hle hne
    have htag : TAG_LENGTH = byteLen START_TAG + byteLen END_TAG := rfl
    omega
  · intro s hs
    obtain ⟨k, hb, _⟩ := buildBatchGo_front options queue TAG_LENGTH
    rw [buildBatch_eq, hb] at hs
    obtain ⟨e, he, hse⟩ := List.mem_map.mp hs
    refine ⟨e, List.mem_of_mem_take he, ?_⟩
    by_cases hsize : byteLen (serializeEvent e) > options.eventBodyLimit
    · exact Or.inr ⟨hsize, by rw [← hse]; simp [finalForm, if_pos hsize]⟩
    · exact Or.inl ⟨by omega, by rw [← hse]; simp [finalForm, if_neg hsize]⟩

/-- C3 witness: the size bound evaluated on a concrete non-empty batch. -/
theorem c3_size_bounds_witness :
    byteLen (envelope (buildBatch defaultOptions [exEvent]).1)
      ≤ defaultOptions.batchPayloadLimit
        + ((buildBatch defaultOptions [exEvent]).1.length - 1) :=
  (c3_size_bounds defaultOptions [exEvent]).1 (by decide)

/-- C4: when every delivery attempt fails retryably (HTTP 500..599 or a
NETWORK_ERRORS code), the retry loop posts the batch exactly maxRetries
times, each attempt re-sends the identical content string, a fixed sleep of
delay seconds separates consecutive attempts, the batch ends unacknowledged
(dropped, since its events were already removed from the queue when the
batch was built and are never re-added), and the send cycle keeps
processing the remaining queued events (the queue after any number of
passes is a suffix of the original queue). -/
theorem c4_retry_bound (options : SeqLoggerOptions) (content : String)
    (outcomes : Nat → AttemptResult) (initEvent : SeqEvent)
    (hmr : 1 ≤ options.maxRetries)
    (hfail : ∀ i, ∃ e, outcomes i = AttemptResult.err e ∧ isRetryableError e = true) :
    sendBatchWithRetries options content outcomes
      = (List.replicate (options.maxRetries - 1) (content, some options.delay)
          ++ [(content, none)], false) ∧
    (sendBatchWithRetries options content outcomes).1.length = options.maxRetries ∧
    (∀ p ∈ (sendBatchWithRetries options content outcomes).1, p.1 = content) ∧
    (∀ (fuel : Nat) (queue : List SeqEvent), ∃ k,
      (sendPasses options initEvent (fun _ => outcomes) fuel true queue).2.1
        = queue.drop k) := by
  have hne : ¬ options.maxRetries = 0 := by omega
  have hmain : sendBatchWithRetries options content outcomes
      = (List.replicate (options.maxRetries - 1) (content, some options.delay)
          ++ [(content, none)], false) := by
    unfold sendBatchWithRetries
    rw [if_neg hne]
    exact retryGo_all_retryable options.delay content outcomes hfail
      (options.maxRetries - 1) 0
  refine ⟨hmain, ?_, ?_, ?_⟩
  · rw [hmain]
    simp
    omega
  · intro p hp
    rw [hmain] at hp
    rcases List.mem_append.mp hp with h1 | h2
    · rw [(List.eq_of_mem_replicate h1)]
    · simp at h2
      rw [h2]
  · intro fuel queue
    obtain ⟨k, _, hk⟩ :=
      sendPasses_takes_front options initEvent fuel (fun _ => outcomes) queue
    exact ⟨k, hk⟩

/-- An axios outcome that always reports HTTP 500 with no network code. -/
def exOutcome500 : Nat → AttemptResult :=
  fun _ => AttemptResult.err { status := some 500, code := none }

/-- C4 witness: with the default options (maxRetries 5, delay 5) and a
server that always answers 500, the trace is five posts of the same
content with four five-second sleeps in between, and the batch is
dropped. -/
theorem c4_retry_bound_witness :
    sendBatchWithRetries defaultOptions "body" exOutcome500
      = (List.replicate 4 ("body", some 5) ++ [("body", none)], false) :=
  (c4_retry_bound defaultOptions "body" exOutcome500 exEvent (by decide)
    (fun i => ⟨{ status := some 500, code := none }, rfl, rfl⟩)).1

/-- C5: events are transmitted in FIFO enqueue order: over any number of
send passes the concatenation of the posted batches is exactly the final
serialized forms of a front segment of the queue in queue order, the
events left over are exactly the corresponding tail in order, and within
one batch every retry attempt posts the identical content string (so a
failed-and-retried batch re-sends the same events in the same order). -/
theorem c5_fifo (options : SeqLoggerOptions) (initEvent : SeqEvent)
    (outcomes : Nat → Nat → AttemptResult) (fuel : Nat) (queue : List SeqEvent) :
    (∃ k, (sendPasses options initEvent outcomes fuel true queue).1.flatten
            = (queue.take k).map (fun e => (finalForm options e).1) ∧
          (sendPasses options initEvent outcomes fuel true queue).2.1 = queue.drop k) ∧
    (∀ (content : String) (att : Nat → AttemptResult),
      ∀ p ∈ (sendBatchWithRetries options content att).1, p.1 = content) := by
  constructor
  · exact sendPasses_takes_front options initEvent fuel outcomes queue
  · intro content att p hp
    unfold sendBatchWithRetries at hp
    by_cases hz : options.maxRetries = 0
    · rw [if_pos hz] at hp
      simp at hp
    · rw [if_neg hz] at hp
      exact retryGo_content_const options.delay content att (options.maxRetries - 1) 0 p hp

/-- C9: safeStringify produces a JSON string for every object of every
well-formed heap, circular references included (the fuel given by
safeStringify never runs out, so the recursion never fails); a reference to
an object already recorded in the replacer seen set is rendered as the
string Circular, a function value is rendered as a Function-name string
(anonymous when the name is empty), and a symbol value is rendered as its
toString form. -/
theorem c9_safeStringify_total (h : Heap) (i : Nat)
    (hwf : heapWF h) (hi : i < h.length) :
    (∃ s sn, safeStringify h (JsVal.ref i) = some (some s, sn)) ∧
    (∀ (fuel : Nat) (sn : List Nat) (j : Nat), j ∈ sn →
      stringifyVal h (fuel + 1) sn (JsVal.ref j)
        = some (some (quoteJson "[Circular]"), sn)) ∧
    (∀ name : String, serializePrimValue (JsPrim.fn name)
        = some (quoteJson ("[Function: "
            ++ (if name = "" then "anonymous" else name) ++ "]"))) ∧
    (∀ d : String, serializePrimValue (JsPrim.sym d)
        = some (quoteJson ("Symbol(" ++ d ++ ")"))) := by
  refine ⟨?_, ?_, fun name => rfl, fun d => rfl⟩
  · have hv : refBoundB h.length (JsVal.ref i) = true := by
      simp [refBoundB, hi]
    have hcnt : unseenCount h [] < h.length + 1 :=
      Nat.lt_succ_of_le (unseenCount_le_length h)
    have hs := stringifyVal_total h hwf (h.length + 1) [] (JsVal.ref i) hv hcnt
    cases hE : stringifyVal h (h.length + 1) [] (JsVal.ref i) with
    | none => rw [hE] at hs; cases hs
    | some pr =>
      obtain ⟨r, sn⟩ := pr
      obtain ⟨s, hsr⟩ := stringifyVal_ref_inner_some h h.length [] i r sn hE
      refine ⟨s, sn, ?_⟩
      rw [safeStringify, hE, hsr]
  · intro fuel sn j hj
    simp [stringifyVal, hj]

/-- A one-object heap whose object refers to itself and also carries an
anonymous function property and a symbol property. -/
def exCircHeap : Heap :=
  [[("self", JsVal.ref 0),
    ("callback", JsVal.prim (JsPrim.fn "")),
    ("tag", JsVal.prim (JsPrim.sym "tag"))]]

/-- C9 witness: the circular self-referencing object is well formed and
safeStringify returns a string for it. -/
theorem c9_safeStringify_total_witness :
    heapWF exCircHeap ∧ 0 < exCircHeap.length ∧
    (∃ s sn, safeStringify exCircHeap (JsVal.ref 0) = some (some s, sn)) :=
  ⟨by decide, by decide,
   (c9_safeStringify_total exCircHeap 0 (by decide) (by decide)).1⟩
